import Mathlib

/-!
Verification of the RL-Tracker extraction engine (`src/parser.py`) against its
natural-language specification.

The Python module is shallowly embedded.  Conventions used throughout:

* Text is modelled as `List Char`; `strL` converts a Lean string literal.
* Calendar days are modelled as integer day indices (day 0 = 0001-01-01, the
  minimum of Python's `datetime` range).  `strftime('%Y-%m-%d')` is injective
  and monotone on that range, and lexicographic order on the produced
  `YYYY-MM-DD` strings agrees with the order of day indices, so date-string
  equality and sorting in the source are faithfully represented by `Int`
  equality and ordering.
* Each regular expression of the source is hand-compiled into a dedicated
  matcher implementing exactly that pattern's leftmost-match / backtracking
  semantics (each such definition carries a comment citing the pattern).
  Character classes `\d`, `\s`, `\w` are modelled by `Char.isDigit`,
  `Char.isWhitespace`, `isWordChar` (the inputs of interest are ASCII).
* Python exceptions are modelled by `Option`/`Except`; all embedded
  extractors are total Lean functions, mirroring the fact that in the source
  every fallible operation inside an extractor is either a regex search
  (which returns `None` rather than raising) or an `int()` conversion of a
  digits-only capture (which cannot raise), or sits inside a local
  `try/except` whose handler is modelled explicitly.
-/

namespace RLTracker

/-- Characters of a string literal; the representation of text used by the
whole embedding. -/
def strL (s : String) : List Char := s.data

/-- Python's `\w` word-character class (ASCII fragment). -/
def isWordChar (c : Char) : Bool := c.isAlphanum || c = '_'

/-- `str.lower()` (ASCII fragment). -/
def lowerL (l : List Char) : List Char := l.map Char.toLower

/-- `needle` occurs at the start of the text (case-sensitive). -/
def startsWithSeq : List Char → List Char → Bool
  | [], _ => true
  | _ :: _, [] => false
  | p :: ps, c :: cs => c = p && startsWithSeq ps cs

/-- Python's substring test `needle in hay` (case-sensitive). -/
def containsSeq (needle : List Char) : List Char → Bool
  | [] => needle.isEmpty
  | c :: t => startsWithSeq needle (c :: t) || containsSeq needle t

/-- Match a case-sensitive literal at the start of the text, returning the
remainder. -/
def lit : List Char → List Char → Option (List Char)
  | [], s => some s
  | _ :: _, [] => none
  | p :: ps, c :: cs => if c = p then lit ps cs else none

/-- Case-insensitive character comparison, as produced by `re.IGNORECASE`. -/
def eqCI (a b : Char) : Bool := a.toLower = b.toLower

/-- Match a case-insensitive literal at the start of the text, returning the
remainder. -/
def litCI : List Char → List Char → Option (List Char)
  | [], s => some s
  | _ :: _, [] => none
  | p :: ps, c :: cs => if eqCI c p then litCI ps cs else none

/-- Match a case-insensitive literal, returning the consumed original
characters together with the remainder (used where a capture group keeps the
original spelling). -/
def litCIC : List Char → List Char → Option (List Char × List Char)
  | [], s => some ([], s)
  | _ :: _, [] => none
  | p :: ps, c :: cs =>
    if eqCI c p then (litCIC ps cs).map (fun r => (c :: r.1, r.2)) else none

/-- `\s+`: at least one whitespace character, consumed greedily (every
following token in the source patterns starts with a non-whitespace
character, so the greedy run is never backtracked). -/
def wsPlus (s : List Char) : Option (List Char) :=
  match s with
  | c :: t => if c.isWhitespace then some (t.dropWhile Char.isWhitespace) else none
  | [] => none

/-- `\s+` keeping the consumed run (for captures that include it). -/
def wsPlusC (s : List Char) : Option (List Char × List Char) :=
  match s with
  | c :: t =>
    if c.isWhitespace then
      some (c :: t.takeWhile Char.isWhitespace, t.dropWhile Char.isWhitespace)
    else none
  | [] => none

/-- `\s*`, greedy. -/
def wsStar (s : List Char) : List Char := s.dropWhile Char.isWhitespace

/-- `\s*` keeping the consumed run. -/
def wsStarC (s : List Char) : List Char × List Char :=
  (s.takeWhile Char.isWhitespace, s.dropWhile Char.isWhitespace)

/-- Maximal digit run at the start of the text (`\d+` at a fixed position);
fails if the first character is not a digit. -/
def digitRunC (s : List Char) : Option (List Char × List Char) :=
  match s.span Char.isDigit with
  | ([], _) => none
  | (run, rest) => some (run, rest)

/-- `int(...)` on a digits-only string. -/
def natOfDigits (l : List Char) : Nat :=
  l.foldl (fun n c => 10 * n + (c.toNat - 48)) 0

/-- `value.replace(',', '')`. -/
def stripCommas (l : List Char) : List Char := l.filter (fun c => c ≠ ',')

/-- `str.strip()`: drop leading and trailing whitespace. -/
def trimWS (l : List Char) : List Char :=
  ((l.dropWhile Char.isWhitespace).reverse.dropWhile Char.isWhitespace).reverse

/-- `re.sub(r'\s+', ' ', s)`: collapse every whitespace run to one space
(fuel-driven structural recursion; the fuel `l.length` always suffices). -/
def collapseWSF : Nat → List Char → List Char
  | 0, _ => []
  | _ + 1, [] => []
  | fuel + 1, c :: t =>
    if c.isWhitespace then ' ' :: collapseWSF fuel (t.dropWhile Char.isWhitespace)
    else c :: collapseWSF fuel t

/-- `re.sub(r'\s+', ' ', s)`. -/
def collapseWS (l : List Char) : List Char := collapseWSF l.length l

/-- `re.search` driver: try the hand-compiled matcher `f` at every position
from left to right and return the first success (Python's leftmost-match
rule).  Fuel `s.length + 1` covers every start position including the empty
suffix. -/
def scanFirst {A : Type} (f : List Char → Option A) : Nat → List Char → Option A
  | 0, _ => none
  | fuel + 1, s =>
    match f s with
    | some a => some a
    | none =>
      match s with
      | [] => none
      | _ :: t => scanFirst f fuel t

/-- `re.findall` driver: scan left to right; after each (non-empty) match,
resume at the position the matcher returns. -/
def scanAll {A : Type} (f : List Char → Option (A × List Char)) :
    Nat → List Char → List A
  | 0, _ => []
  | fuel + 1, s =>
    (f s).elim
      (match s with
       | [] => []
       | _ :: t => scanAll f fuel t)
      (fun p => p.1 :: scanAll f fuel p.2)

/-- `re.search` driver for a pattern with a one-character negative lookbehind:
the matcher also receives the character preceding the current position
(`none` at the start of the text). -/
def scanFirstPrev {A : Type} (f : Option Char → List Char → Option A) :
    Nat → Option Char → List Char → Option A
  | 0, _, _ => none
  | fuel + 1, prev, s =>
    match f prev s with
    | some a => some a
    | none =>
      match s with
      | [] => none
      | c :: t => scanFirstPrev f fuel (some c) t

/-- Leftmost match of `(\d+)` (`re.search(r'(\d+)', text)`): the first maximal
digit run. -/
def firstDigitRun (s : List Char) : Option (List Char) :=
  scanFirst (fun r => (digitRunC r).map Prod.fst) (s.length + 1) s

/-! ### Date normalizer (`RLStatsParser._parse_relative_date`, lines 274-299)

`datetime.now()` is the only ambient input of the source function; it is made
explicit as the `now : Int` day-index parameter.  `today.strftime('%Y-%m-%d')`
is modelled by `now` itself (day-level identity). -/

/-- `timedelta` rejects magnitudes beyond 999 999 999 days. -/
def timedeltaMaxDays : Nat := 999999999

/-- `today - timedelta(days = n)` followed by `strftime`.  An `OverflowError`
(from a too-large `timedelta` or a result before `datetime.min`, i.e. day 0)
is raised inside the function's `try` block, whose bare `except` returns
`None`; both are modelled by `none`. -/
def dateSubDays (now : Int) (n : Nat) : Option Int :=
  if n ≤ timedeltaMaxDays ∧ 0 ≤ now - (n : Int) then some (now - (n : Int)) else none

def hourL : List Char := strL "hour"
def dayL : List Char := strL "day"
def weekL : List Char := strL "week"
def monthL : List Char := strL "month"

/-- `RLStatsParser._parse_relative_date(relative_str)` (source lines 274-299),
with `datetime.now()` passed explicitly as `now`.

```
text = relative_str.lower()
match = re.search(r'(\d+)', text)
if not match: return today.strftime('%Y-%m-%d')
num = int(match.group(1))
if 'hour' in text: return today.strftime(...)
elif 'day' in text: return (today - timedelta(days=num)).strftime(...)
elif 'week' in text: return (today - timedelta(weeks=num)).strftime(...)
return today.strftime(...)
```
Note the function has no `'month'` branch: such phrases fall through to the
final `return today`.  `timedelta(weeks=num)` is `7 * num` days. -/
def parse_relative_date (now : Int) (relative : List Char) : Option Int :=
  let text := lowerL relative
  match firstDigitRun text with
  | none => some now
  | some run =>
    let num := natOfDigits run
    if containsSeq hourL text then some now
    else if containsSeq dayL text then dateSubDays now num
    else if containsSeq weekL text then dateSubDays now (7 * num)
    else some now

/-! ### Session/match extractor (`RLStatsParser.extract_matches`, lines 112-212) -/

/-- One parsed per-playlist match tally (source lines 188-192):
`{'count': int, 'playlist': str, 'mmr': int}`. -/
structure MatchTally where
  count : Nat
  playlist : List Char
  mmr : Nat
deriving DecidableEq

/-- One session dict (source lines 154-169).  Dictionary keys that are set
conditionally are modelled as `Option` fields. -/
structure Session where
  time_ago : List Char
  date : Option Int
  wins : Nat
  /-- the `'matches'` key (the word itself is reserved in Lean) -/
  matchList : List MatchTally
  goals : Option Nat
  shots : Option Nat
  assists : Option Nat
  saves : Option Nat
  mvp_count : Option Nat
deriving DecidableEq

/-- The second component returned by `extract_matches`: the early-return on a
missing document (line 119) hands back the `defaultdict` accumulator (a
mapping), while the normal path (line 212) hands back the sorted list built
on line 210.  The two distinct Python types are kept apart. -/
inductive HeatmapRet where
  | dict (entries : List (Int × Nat))
  | list (entries : List (Int × Nat))
deriving DecidableEq

/-- Whether the heatmap component is the sequence form of the data model. -/
def heatIsSeq : HeatmapRet → Bool
  | .dict _ => false
  | .list _ => true

/-- The underlying date/count pairs of either form. -/
def heatEntries : HeatmapRet → List (Int × Nat)
  | .dict l => l
  | .list l => l

/-- `defaultdict(int)` update `heatmap_data[d] += v`: add in place if the key
exists, else append with initial value `0 + v` (insertion order at the end,
as a Python dict does). -/
def bump (d : Int) (v : Nat) : List (Int × Nat) → List (Int × Nat)
  | [] => [(d, v)]
  | p :: t => if p.1 = d then (p.1, p.2 + v) :: t else p :: bump d v t

/-- Association-list lookup (Python `dict` access by key). -/
def alookup (d : Int) : List (Int × Nat) → Option Nat
  | [] => none
  | p :: t => if p.1 = d then some p.2 else alookup d t

/-- Insert a pair into a list sorted by key (helper of `sortByKey`). -/
def insertByKey (p : Int × Nat) : List (Int × Nat) → List (Int × Nat)
  | [] => [p]
  | q :: t => if p.1 ≤ q.1 then p :: q :: t else q :: insertByKey p t

/-- `sorted(heatmap_data.items())` (line 210): the keys are pairwise distinct,
so sorting the items lexicographically is sorting by key. -/
def sortByKey : List (Int × Nat) → List (Int × Nat)
  | [] => []
  | p :: t => insertByKey p (sortByKey t)

def sessionOverviewL : List Char := strL "Session Overview"
def getTheMobileL : List Char := strL "Get the Mobile"
def premiumUsersL : List Char := strL "Premium users"
def agoL : List Char := strL "ago"
def hoursUnitL : List Char := strL "hour"
def daysUnitL : List Char := strL "day"
def weeksUnitL : List Char := strL "week"
def monthsUnitL : List Char := strL "month"

/-- The unit alternation `(?:hours?|days?|weeks?|months?)` of the session
pattern (case-insensitive), returning the consumed original characters.  The
optional `s?` is taken greedily; since the token after the unit is `\s+` and
`'s'` is not whitespace, dropping the `s` can never rescue a failed
continuation, so no backtracking across this choice is observable. -/
def unitAltC (s : List Char) : Option (List Char × List Char) :=
  match litCIC hoursUnitL s with
  | some (c, r) => some (withOptS c r)
  | none =>
    match litCIC daysUnitL s with
    | some (c, r) => some (withOptS c r)
    | none =>
      match litCIC weeksUnitL s with
      | some (c, r) => some (withOptS c r)
      | none =>
        match litCIC monthsUnitL s with
        | some (c, r) => some (withOptS c r)
        | none => none
where
  withOptS (c r : List Char) : List Char × List Char :=
    match r with
    | x :: t => if eqCI x 's' then (c ++ [x], t) else (c, r)
    | [] => (c, [])

/-- `$` of the session pattern: end of text, or the position just before one
final newline (Python's `$` without `re.MULTILINE`). -/
def atDollar (s : List Char) : Bool :=
  match s with
  | [] => true
  | [c] => c = '\n'
  | _ => false

/-- The lookahead `(?=Session Overview|Get the Mobile|Premium users|$)`
(case-insensitive alternatives). -/
def sessionStop (s : List Char) : Bool :=
  (litCI sessionOverviewL s).isSome || (litCI getTheMobileL s).isSome ||
    (litCI premiumUsersL s).isSome || atDollar s

/-- The lazy body `(.*?)` (with `re.DOTALL`) up to the first position where
`sessionStop` holds: shortest-first expansion of a lazy star. -/
def lazyBody : Nat → List Char → List Char × List Char
  | 0, s => ([], s)
  | fuel + 1, s =>
    if sessionStop s then ([], s)
    else
      match s with
      | [] => ([], [])
      | c :: t =>
        let r := lazyBody fuel t
        (c :: r.1, r.2)

/-- One match of the session pattern (line 124, `re.DOTALL | re.IGNORECASE`)

```
Session Overview\s+(\d+\s+(?:hours?|days?|weeks?|months?)\s+ago)(.*?)
  (?=Session Overview|Get the Mobile|Premium users|$)
```

at a fixed position, returning `((time_ago, details), rest)` where `rest` is
the position of the zero-width lookahead at which `findall` resumes. -/
def trySessionAt (s : List Char) : Option ((List Char × List Char) × List Char) := do
  let r1 ← litCI sessionOverviewL s
  let r2 ← wsPlus r1
  let (digits, r3) ← digitRunC r2
  let (w1, r4) ← wsPlusC r3
  let (unit, r5) ← unitAltC r4
  let (w2, r6) ← wsPlusC r5
  let (ago, r7) ← litCIC agoL r6
  let body := lazyBody r7.length r7
  return ((digits ++ w1 ++ unit ++ w2 ++ ago, body.1), body.2)

/-- `re.findall(session_pattern, full_text, re.DOTALL | re.IGNORECASE)`
(line 125): the list of `(time_ago, details)` pairs. -/
def segmentSessions (text : List Char) : List (List Char × List Char) :=
  scanAll trySessionAt (text.length + 1) text

def matchWordL : List Char := strL "Match"
def esL : List Char := strL "es"
def rankedSpL : List Char := strL "Ranked"
def duelL : List Char := strL "Duel"
def doublesL : List Char := strL "Doubles"
def standardAltL : List Char := strL "Standard"
def fourVFourL : List Char := strL "4v4"
def quadL : List Char := strL "Quad"
def sLitL : List Char := strL "s"
def kw3v3L : List Char := strL "3v3"
def kw2v2L : List Char := strL "2v2"
def kw1v1L : List Char := strL "1v1"
def stdNameL : List Char := strL "Ranked Standard 3v3"
def dblNameL : List Char := strL "Ranked Doubles 2v2"
def duelNameL : List Char := strL "Ranked Duel 1v1"

/-- Raw capture groups of one match of the tally pattern (line 145). -/
structure TallyRaw where
  cnt : List Char
  pl : List Char
  mmr : List Char
deriving DecidableEq

/-- `\dv\d` (the trailing token of the playlist group). -/
def dvdTok (s : List Char) : Option (List Char × List Char) :=
  match s with
  | a :: v :: b :: r =>
    if a.isDigit && v = 'v' && b.isDigit then some ([a, v, b], r) else none
  | _ => none

/-- The playlist alternation `(?:Duel|Doubles|Standard|4v4\s+Quads?)`.  The
first three literals and `4v4` are pairwise prefix-incompatible (they diverge
within their first two characters), so at most one branch can match and the
usual alternation backtracking is not observable; the optional `s` of
`Quads?` is greedy and, as with `unitAltC`, dropping it can never rescue the
following `\s+`. -/
def playlistAlt (s : List Char) : Option (List Char × List Char) :=
  match lit duelL s with
  | some r => some (duelL, r)
  | none =>
    match lit doublesL s with
    | some r => some (doublesL, r)
    | none =>
      match lit standardAltL s with
      | some r => some (standardAltL, r)
      | none => do
        let s1 ← lit fourVFourL s
        let (w, s2) ← wsPlusC s1
        let s3 ← lit quadL s2
        match lit sLitL s3 with
        | some s4 => some (fourVFourL ++ w ++ quadL ++ sLitL, s4)
        | none => some (fourVFourL ++ w ++ quadL, s3)

/-- `(\d{1,3}(?:,\d{3})?)` — the rating group of the tally pattern.  `\d{1,3}`
greedily takes at most three digits of the maximal run; the optional comma
group is then taken if present.  The pattern ends here, so no backtracking
can be forced by a continuation. -/
def mmrTok (s : List Char) : Option (List Char × List Char) :=
  match digitRunC s with
  | none => none
  | some (run, rest) =>
    let d := run.take 3
    let r2 := run.drop 3 ++ rest
    match r2 with
    | ',' :: x :: y :: z :: r3 =>
      if x.isDigit && y.isDigit && z.isDigit then some (d ++ [',', x, y, z], r3)
      else some (d, r2)
    | _ => some (d, r2)

/-- The continuation of the tally pattern after the count capture:
`(?:\s+Match(?:es)?)\s+(Ranked\s+(?:Duel|Doubles|Standard|4v4\s+Quads?)\s+\dv\d)\s*(\d{1,3}(?:,\d{3})?)`.
The optional `es` is greedy; since it is followed by `\s+` and `'e'` is not
whitespace, the ungreedy branch can never succeed where the greedy one
failed past it, so both branches are tried with the full continuation. -/
def tallyCont (cnt : List Char) (s : List Char) : Option (TallyRaw × List Char) :=
  match wsPlus s with
  | none => none
  | some s1 =>
    match lit matchWordL s1 with
    | none => none
    | some s2 =>
      match (do
        let a ← lit esL s2
        tallyTail cnt a) with
      | some r => some r
      | none => tallyTail cnt s2
where
  tallyTail (cnt : List Char) (s3 : List Char) : Option (TallyRaw × List Char) := do
    let s4 ← wsPlus s3
    let s5 ← lit rankedSpL s4
    let (w1, s6) ← wsPlusC s5
    let (alt, s7) ← playlistAlt s6
    let (w2, s8) ← wsPlusC s7
    let (dvd, s9) ← dvdTok s8
    let (m, s10) ← mmrTok (wsStar s9)
    return ({ cnt := cnt, pl := rankedSpL ++ w1 ++ alt ++ w2 ++ dvd, mmr := m }, s10)

/-- One match of the tally pattern at a fixed position: the leading
`(\d{1,2})` greedily takes two digits, backtracking to one if the
continuation fails. -/
def tryTallyAt (s : List Char) : Option (TallyRaw × List Char) :=
  match s with
  | [] => none
  | a :: t =>
    if a.isDigit then
      match t with
      | b :: u =>
        if b.isDigit then
          match tallyCont [a, b] u with
          | some r => some r
          | none => tallyCont [a] t
        else tallyCont [a] t
      | [] => tallyCont [a] t
    else none

/-- `re.findall` of the tally pattern (line 145) over a session body. -/
def findTallies (s : List Char) : List TallyRaw :=
  scanAll tryTallyAt (s.length + 1) s

/-- Playlist normalization (lines 178-184): Python `in` keyword-containment
checks applied on the `strip()`ed capture. -/
def normalizePlaylist (pl : List Char) : List Char :=
  if containsSeq standardAltL pl || containsSeq kw3v3L pl then stdNameL
  else if containsSeq doublesL pl || containsSeq kw2v2L pl then dblNameL
  else if containsSeq duelL pl || containsSeq kw1v1L pl then duelNameL
  else pl

/-- Lines 173-192: one tally dict from one raw capture triple. -/
def mkTally (raw : TallyRaw) : MatchTally :=
  { count := natOfDigits raw.cnt
    playlist := normalizePlaylist (trimWS raw.pl)
    mmr := natOfDigits (stripCommas raw.mmr) }

def winL : List Char := strL "Win"
def goalsWordL : List Char := strL "Goals"
def shotsWordL : List Char := strL "Shots"
def slashL : List Char := strL "/"
def assistsWordL : List Char := strL "Assists"
def savesWordL : List Char := strL "Saves"
def mvpWordL : List Char := strL "MVP"

/-- `re.search(r'(\d+)\s+Wins?', details)` (line 136); the optional `s?` does
not affect success.  At any start position `\d+` greedily takes the maximal
digit run; `\s+` cannot absorb digits, so no backtracking arises. -/
def searchWins (details : List Char) : Option Nat :=
  scanFirst
    (fun s => do
      let (d, r1) ← digitRunC s
      let r2 ← wsPlus r1
      let _ ← lit winL r2
      return natOfDigits d)
    (details.length + 1) details

/-- `re.search(r'Goals\s*/\s*Shots\s+(\d+)\s*/\s*(\d+)', details)` (line 148). -/
def searchGoalsShots (details : List Char) : Option (Nat × Nat) :=
  scanFirst
    (fun s => do
      let s1 ← lit goalsWordL s
      let s2 ← lit slashL (wsStar s1)
      let s3 ← lit shotsWordL (wsStar s2)
      let s4 ← wsPlus s3
      let (d1, s5) ← digitRunC s4
      let s6 ← lit slashL (wsStar s5)
      let (d2, _) ← digitRunC (wsStar s6)
      return (natOfDigits d1, natOfDigits d2))
    (details.length + 1) details

/-- `re.search(r'Assists\s+(\d+)', details)` (line 149). -/
def searchAssists (details : List Char) : Option Nat :=
  scanFirst
    (fun s => do
      let s1 ← lit assistsWordL s
      let s2 ← wsPlus s1
      let (d, _) ← digitRunC s2
      return natOfDigits d)
    (details.length + 1) details

/-- `re.search(r'Saves\s+(\d+)', details)` (line 150). -/
def searchSaves (details : List Char) : Option Nat :=
  scanFirst
    (fun s => do
      let s1 ← lit savesWordL s
      let s2 ← wsPlus s1
      let (d, _) ← digitRunC s2
      return natOfDigits d)
    (details.length + 1) details

/-- `re.search(r'MVP\s*\((\d+)\)', details)` (line 151). -/
def searchMVP (details : List Char) : Option Nat :=
  scanFirst
    (fun s => do
      let s1 ← lit mvpWordL s
      let s2 ← lit (strL "(") (wsStar s1)
      let (d, s3) ← digitRunC s2
      let _ ← lit (strL ")") s3
      return natOfDigits d)
    (details.length + 1) details

/-- Lines 130-169: the session dict built for one `(time_ago, details)`
block. -/
def mkSession (now : Int) (blk : List Char × List Char) : Session :=
  let gs := searchGoalsShots blk.2
  { time_ago := blk.1
    date := parse_relative_date now blk.1
    wins := (searchWins blk.2).getD 0
    matchList := (findTallies blk.2).map mkTally
    goals := gs.map Prod.fst
    shots := gs.map Prod.snd
    assists := searchAssists blk.2
    saves := searchSaves blk.2
    mvp_count := searchMVP blk.2 }

/-- Total tallied match count of a session (`total_matches`, lines 172-175). -/
def tallySum (s : Session) : Nat := (s.matchList.map (fun t => t.count)).sum

/-- Lines 129-204, body of the per-session loop: build the session, update
the heatmap accumulator when the date is non-null and the total positive
(line 195), and append the session only when it has matches (line 199).
Nothing in the loop body can raise in the embedding (all captures are
digits-only), so the `except: continue` on line 202 is dead. -/
def sessionStep (now : Int) (st : List Session × List (Int × Nat))
    (blk : List Char × List Char) : List Session × List (Int × Nat) :=
  let sess := mkSession now blk
  let total := tallySum sess
  let heat :=
    match sess.date with
    | some d => if 0 < total then bump d total st.2 else st.2
    | none => st.2
  (if sess.matchList = [] then st.1 else st.1 ++ [sess], heat)

/-- `RLStatsParser.extract_matches(soup)` (lines 112-212).  `soup = None`
short-circuits on line 119, returning the *`defaultdict`* accumulator as the
heatmap component; otherwise the first 20 session blocks (line 129) are
folded and the heatmap is emitted as a key-sorted list (lines 210-212). -/
def extract_matches (now : Int) (doc : Option (List Char)) :
    List Session × HeatmapRet :=
  match doc with
  | none => ([], .dict [])
  | some text =>
    let blocks := (segmentSessions text).take 20
    let r := blocks.foldl (sessionStep now) ([], [])
    (r.1, .list (sortByKey r.2))

/-! ### Lifetime stats extractor (`RLStatsParser.extract_lifetime_stats`,
lines 301-338).  All patterns are searched with `re.IGNORECASE`. -/

/-- `\d{1,3}(?:,\d{3})*` immediately followed by the required `#`.
Backtracking analysis: `\d{1,3}` must consume a complete digit run (a
shorter choice leaves a digit where either `,` or `#` is required), so the
run length must be at most 3; each `,\d{3}` repetition is then forced
greedily, and `#` must follow the last one (any ungreedy choice leaves a
digit or comma where `#` is required).  Returns the captured value. -/
def commaValueHash (s : List Char) : Option (List Char × List Char) :=
  match digitRunC s with
  | none => none
  | some (run, rest) =>
    if run.length ≤ 3 then commaGroups run rest else none
where
  commaGroups : List Char → List Char → Option (List Char × List Char)
    | acc, ',' :: x :: y :: z :: r =>
      if x.isDigit && y.isDigit && z.isDigit then
        commaGroups (acc ++ [',', x, y, z]) r
      else finishHash acc (',' :: x :: y :: z :: r)
    | acc, r => finishHash acc r
  finishHash (acc r : List Char) : Option (List Char × List Char) :=
    match r with
    | '#' :: t => some (acc, t)
    | _ => none

/-- `[\d.]+` greedily, then the required `#` (the `Goal Shot Ratio` value
class); a shorter run leaves a digit or dot where `#` is required, so the
greedy choice is forced. -/
def dotValueHash (s : List Char) : Option (List Char × List Char) :=
  match s.span (fun c => c.isDigit || c = '.') with
  | ([], _) => none
  | (run, rest) =>
    match rest with
    | '#' :: t => some (run, t)
    | _ => none

/-- `[\d,]+\.?\d*` greedily, then the required `#` (the `TRN Score` value
class); as above every ungreedy choice leaves a digit, comma or dot where
`#` is required. -/
def scoreValueHash (s : List Char) : Option (List Char × List Char) :=
  match s.span (fun c => c.isDigit || c = ',') with
  | ([], _) => none
  | (run, rest) =>
    match rest with
    | '.' :: t =>
      let (ds, r2) := t.span Char.isDigit
      match r2 with
      | '#' :: t2 => some (run ++ ['.'] ++ ds, t2)
      | _ => none
    | '#' :: t => some (run, t)
    | _ => none

def lifetimeWordL : List Char := strL "Lifetime"
def mvpsWordL : List Char := strL "MVPs"
def goalWordL : List Char := strL "Goal"
def shotWordL : List Char := strL "Shot"
def ratioWordL : List Char := strL "Ratio"
def trnWordL : List Char := strL "TRN"
def scoreWordL : List Char := strL "Score"
def pctL : List Char := strL "%"

/-- `re.search(r'Lifetime\s+Wins(\d{1,3}(?:,\d{3})*)#', text, re.IGNORECASE)`
(line 314). -/
def searchWinsLT (text : List Char) : Option (List Char) :=
  scanFirst
    (fun s => do
      let s1 ← litCI lifetimeWordL s
      let s2 ← wsPlus s1
      let s3 ← litCI (strL "Wins") s2
      let (v, _) ← commaValueHash s3
      return v)
    (text.length + 1) text

/-- `re.search(r'(?<!\w)LABEL(\d{1,3}(?:,\d{3})*)#', text, re.IGNORECASE)` —
the shape shared by the `Goals`, `Assists`, `Saves` and `Shots` patterns
(lines 315-318), whose negative lookbehind requires the preceding character
(if any) not to be a word character. -/
def searchBehindLT (label : List Char) (text : List Char) : Option (List Char) :=
  scanFirstPrev
    (fun prev s => do
      if (prev.map isWordChar).getD false then none
      else do
        let s1 ← litCI label s
        let (v, _) ← commaValueHash s1
        return v)
    (text.length + 1) none text

/-- `re.search(r'MVPs(\d{1,3}(?:,\d{3})*)#', text, re.IGNORECASE)` (line 319). -/
def searchMVPsLT (text : List Char) : Option (List Char) :=
  scanFirst
    (fun s => do
      let s1 ← litCI mvpsWordL s
      let (v, _) ← commaValueHash s1
      return v)
    (text.length + 1) text

/-- `re.search(r'Goal\s+Shot\s+Ratio([\d.]+)#', text, re.IGNORECASE)`
(line 320). -/
def searchRatioLT (text : List Char) : Option (List Char) :=
  scanFirst
    (fun s => do
      let s1 ← litCI goalWordL s
      let s2 ← wsPlus s1
      let s3 ← litCI shotWordL s2
      let s4 ← wsPlus s3
      let s5 ← litCI ratioWordL s4
      let (v, _) ← dotValueHash s5
      return v)
    (text.length + 1) text

/-- `re.search(r'TRN\s+Score([\d,]+\.?\d*)#', text, re.IGNORECASE)`
(line 321). -/
def searchScoreLT (text : List Char) : Option (List Char) :=
  scanFirst
    (fun s => do
      let s1 ← litCI trnWordL s
      let s2 ← wsPlus s1
      let s3 ← litCI scoreWordL s2
      let (v, _) ← scoreValueHash s3
      return v)
    (text.length + 1) text

/-- `RLStatsParser.extract_lifetime_stats(soup)` (lines 301-338) on a present
document's text: the fixed `stat_patterns` table is processed in insertion
order; each matching label contributes one `(label, value)` entry, the
`Goal Shot Ratio` value receiving a trailing `%` when it lacks one
(lines 330-331).  Nothing in the loop body can raise, so the
`except: continue` on line 334 is dead. -/
def extract_lifetime_stats (text : List Char) : List (List Char × List Char) :=
  ((searchWinsLT text).map (fun v => (strL "Wins", v))).toList ++
  (((searchBehindLT goalsWordL text).map (fun v => (strL "Goals", v))).toList ++
  (((searchBehindLT assistsWordL text).map (fun v => (strL "Assists", v))).toList ++
  (((searchBehindLT savesWordL text).map (fun v => (strL "Saves", v))).toList ++
  (((searchBehindLT shotsWordL text).map (fun v => (strL "Shots", v))).toList ++
  (((searchMVPsLT text).map (fun v => (strL "MVPs", v))).toList ++
  (((searchRatioLT text).map (fun v =>
    (strL "Goal Shot Ratio", if containsSeq pctL v then v else v ++ pctL))).toList ++
  ((searchScoreLT text).map (fun v => (strL "TRN Score", v))).toList))))))

/-- Association-list lookup with string keys (Python `dict` access). -/
def alookupS {A : Type} (k : List Char) : List (List Char × A) → Option A
  | [] => none
  | p :: t => if p.1 = k then some p.2 else alookupS k t

/-! ### Rank extractor (`RLStatsParser.extract_ranks`, lines 37-110).
All patterns here are case-sensitive. -/

/-- `{'rank': str, 'mmr': int}` (lines 99-102). -/
structure RankEntry where
  rank : List Char
  mmr : Nat
deriving DecidableEq

def unrankedL : List Char := strL "Unranked"
def divWordL : List Char := strL "Div"

/-- The tier-name alternation
`(?:Supersonic Legend|Grand Champion|Champion|Diamond|Platinum|Gold|Silver|Bronze)`
in source order; the literals are pairwise prefix-incompatible (any two
diverge within their first two characters), so at most one branch matches
and alternation backtracking is not observable. -/
def tierName (s : List Char) : Option (List Char × List Char) :=
  tryOne (strL "Supersonic Legend") <|> tryOne (strL "Grand Champion") <|>
  tryOne (strL "Champion") <|> tryOne (strL "Diamond") <|>
  tryOne (strL "Platinum") <|> tryOne (strL "Gold") <|>
  tryOne (strL "Silver") <|> tryOne (strL "Bronze")
where
  tryOne (nm : List Char) : Option (List Char × List Char) :=
    (lit nm s).map (fun r => (nm, r))

/-- `(?:I{1,3}|IV|V)` in tail position (nothing of the pattern follows):
`I{1,3}` greedily takes up to three `I`s and, being the first alternative,
wins whenever the text starts with `I` — so `IV` yields `I` (a quirk of the
source pattern, preserved here). -/
def romanTail (s : List Char) : Option (List Char × List Char) :=
  match s with
  | 'I' :: t =>
    let run := (t.takeWhile (fun c => c = 'I')).take 2
    some ('I' :: run, t.drop run.length)
  | 'V' :: t => some (['V'], t)
  | _ => none

/-- One candidate of `(?:I{1,3}|IV|V)\s+Div\s+(?:I{1,3}|IV|V)`: a fixed roman
literal followed by the full continuation. -/
def romanCand (r : List Char) (s : List Char) : Option (List Char × List Char) := do
  let s1 ← lit r s
  let (w1, s2) ← wsPlusC s1
  let s3 ← lit divWordL s2
  let (w2, s4) ← wsPlusC s3
  let (fr, s5) ← romanTail s4
  return (r ++ w1 ++ divWordL ++ w2 ++ fr, s5)

/-- `(?:I{1,3}|IV|V)\s+Div\s+(?:I{1,3}|IV|V)` with honest backtracking over
the first roman numeral: `I{1,3}` greedily tries three, two, then one `I`,
then the alternatives `IV` and `V`, each with the continuation. -/
def romanThenDiv (s : List Char) : Option (List Char × List Char) :=
  romanCand (strL "III") s <|> romanCand (strL "II") s <|> romanCand (strL "I") s <|>
  romanCand (strL "IV") s <|> romanCand (strL "V") s

/-- The tier capture group of the combined rank pattern (line 70):
`((?:tier names)\s+(?:I{1,3}|IV|V)\s+Div\s+(?:I{1,3}|IV|V))`. -/
def tierAt (s : List Char) : Option (List Char × List Char) := do
  let (nm, s1) ← tierName s
  let (w1, s2) ← wsPlusC s1
  let (rd, s3) ← romanThenDiv s2
  return (nm ++ w1 ++ rd, s3)

/-- A character of the class `[Div\d\s]`. -/
def inDivClass (c : Char) : Bool :=
  c = 'D' || c = 'i' || c = 'v' || c.isDigit || c.isWhitespace

/-- `[Div\d\s]*?` (lazy) followed by the tier group: expand the lazy star
shortest-first, attempting the tier group at every intermediate position. -/
def lazyTier : Nat → List Char → Option (List Char × List Char)
  | 0, _ => none
  | fuel + 1, s =>
    match tierAt s with
    | some r => some r
    | none =>
      match s with
      | c :: t => if inDivClass c then lazyTier fuel t else none
      | [] => none

/-- `(\d{1,4}(?:,\d{3})?)` — the rating group of the combined rank pattern.
`\d{1,4}` greedily takes at most four digits of the maximal run, then the
optional comma group.  (A shorter digit choice leaves a digit as the next
character, which the following `[Div\d\s]*?` class also accepts, reaching
exactly the same tier positions — so if the greedy choice fails the pattern,
every choice does, and the greedy result is canonical.) -/
def mmrTok4 (s : List Char) : Option (List Char × List Char) :=
  match digitRunC s with
  | none => none
  | some (run, rest) =>
    let d := run.take 4
    let r2 := run.drop 4 ++ rest
    match r2 with
    | ',' :: x :: y :: z :: r3 =>
      if x.isDigit && y.isDigit && z.isDigit then some (d ++ [',', x, y, z], r3)
      else some (d, r2)
    | _ => some (d, r2)

/-- The combined rank pattern (lines 70-72) at a fixed position:
`LABEL\s+(\d{1,4}(?:,\d{3})?)[Div\d\s]*?(TIER)`; returns the two capture
groups `(mmr string, tier string)`. -/
def rankCombinedAt (label : List Char) (s : List Char) :
    Option (List Char × List Char) := do
  let s1 ← lit label s
  let s2 ← wsPlus s1
  let (m, s3) ← mmrTok4 s2
  let (tier, _) ← lazyTier (s3.length + 1) s3
  return (m, tier)

/-- `re.search(pattern_with_div, full_text)` (line 72). -/
def rankCombined (label : List Char) (text : List Char) :
    Option (List Char × List Char) :=
  scanFirst (rankCombinedAt label) (text.length + 1) text

/-- The suffix of the text starting at the first occurrence of `label`
(`full_text.find(pattern)`, line 76; the caller has already established
containment). -/
def dropToFirst (label : List Char) : List Char → List Char
  | [] => []
  | c :: t => if startsWithSeq label (c :: t) then c :: t else dropToFirst label t

/-- Fallback rating search (line 78):
`re.search(rf'LABEL\s*(\d{1,4}(?:,\d{3})?)', chunk)`. -/
def searchLabelMMR (label : List Char) (chunk : List Char) : Option (List Char) :=
  scanFirst
    (fun s => do
      let s1 ← lit label s
      let (m, _) ← mmrTok4 (wsStar s1)
      return m)
    (chunk.length + 1) chunk

/-- The optional roman numeral of the fallback rank pattern: the first
prefix-matching alternative of `(?:I{1,3}|IV|V)?` wins (everything after it
in the pattern is optional, so the continuation always succeeds). -/
def optRoman (s : List Char) : List Char × List Char :=
  match romanPick (strL "III") s with
  | some r => r
  | none =>
    match romanPick (strL "II") s with
    | some r => r
    | none =>
      match romanPick (strL "I") s with
      | some r => r
      | none =>
        match romanPick (strL "IV") s with
        | some r => r
        | none =>
          match romanPick (strL "V") s with
          | some r => r
          | none => ([], s)
where
  romanPick (r : List Char) (s : List Char) : Option (List Char × List Char) :=
    (lit r s).map (fun rest => (r, rest))

/-- The optional `(?:Div\s+(?:I{1,3}|IV|V))?` of the fallback rank pattern:
all-or-nothing; on any internal failure the group matches empty. -/
def optDivPart (s : List Char) : List Char × List Char :=
  match (do
    let s1 ← lit divWordL s
    let (w, s2) ← wsPlusC s1
    let (r, s3) ← romanTail s2
    return (divWordL ++ w ++ r, s3)) with
  | some r => r
  | none => ([], s)

/-- The fallback rank pattern (line 84) at a fixed position:
`((?:tier names)\s+(?:I{1,3}|IV|V)?\s*(?:Div\s+(?:I{1,3}|IV|V))?)`. -/
def rankFallbackAt (s : List Char) : Option (List Char) := do
  let (nm, s1) ← tierName s
  let (w1, s2) ← wsPlusC s1
  let (rom, s3) := optRoman s2
  let (w2, s4) := wsStarC s3
  let (dv, _) := optDivPart s4
  return nm ++ w1 ++ rom ++ w2 ++ dv

/-- `re.search(rank_pattern, chunk)` (line 85). -/
def searchRankPat (chunk : List Char) : Option (List Char) :=
  scanFirst rankFallbackAt (chunk.length + 1) chunk

/-- Lines 61-103, one iteration of the playlist loop: `None` when the label
is absent or the recovered pair fails the storage test
`rank != "Unranked" or mmr > 0` (line 98); the loop body cannot raise in
the embedding, so the `except` on line 105 is dead. -/
def rankEntryFor (text label : List Char) : Option RankEntry :=
  if containsSeq label text then
    match rankCombined label text with
    | some (mmrStr, tierStr) =>
      let mmr := natOfDigits (stripCommas mmrStr)
      let rank := collapseWS (trimWS tierStr)
      if rank ≠ unrankedL ∨ 0 < mmr then some { rank := rank, mmr := mmr } else none
    | none =>
      let chunk := (dropToFirst label text).take 200
      let mmr :=
        match searchLabelMMR label chunk with
        | some m => natOfDigits (stripCommas m)
        | none => 0
      let rank :=
        match searchRankPat chunk with
        | some r => collapseWS (trimWS r)
        | none => unrankedL
      if rank ≠ unrankedL ∨ 0 < mmr then some { rank := rank, mmr := mmr } else none
  else none

/-- `RLStatsParser.extract_ranks(soup)` (lines 37-110) on a present
document's text: the ranks dict in its insertion order (the `playlists`
table of lines 51-59, one entry at most per playlist, keys pairwise
distinct). -/
def extract_ranks (text : List Char) : List (List Char × RankEntry) :=
  ((rankEntryFor text (strL "Ranked Duel 1v1")).map
    (fun e => (strL "Ranked Duel 1v1", e))).toList ++
  (((rankEntryFor text (strL "Ranked Doubles 2v2")).map
    (fun e => (strL "Ranked Doubles 2v2", e))).toList ++
  (((rankEntryFor text (strL "Ranked Standard 3v3")).map
    (fun e => (strL "Ranked Standard 3v3", e))).toList ++
  (((rankEntryFor text (strL "Hoops")).map (fun e => (strL "Hoops", e))).toList ++
  (((rankEntryFor text (strL "Rumble")).map (fun e => (strL "Rumble", e))).toList ++
  (((rankEntryFor text (strL "Dropshot")).map (fun e => (strL "Dropshot", e))).toList ++
  ((rankEntryFor text (strL "Snowday")).map (fun e => (strL "Snow Day", e))).toList)))))

/-! ### Result assembler (`RLStatsParser.parse_all`, lines 340-401) -/

/-- The JSON `output` dict (lines 368-374).  The `'__lifetime__'` key that
lines 361-362 embed inside the overview dict is modelled as the separate
`overview_lifetime` field (`none` when `extract_lifetime_stats` returned an
empty, hence falsy, dict). -/
structure ExtractionOutput where
  timestamp : Int
  overview_ranks : List (List Char × RankEntry)
  overview_lifetime : Option (List (List Char × List Char))
  sessions : List Session
  activity_heatmap : HeatmapRet
  performance : List (List Char × List Char)
deriving DecidableEq

/-- Lines 354-374 as a computation skeleton: the three extractor invocations
are sequenced with **no** surrounding `try`/`except`, so a raised exception
(an `Except.error`) in any of them propagates; `performance_data = {}` is the
constant of line 365 (the performance extractor is not invoked).  The
concrete extractors of this module are total and enter as `Except.ok`. -/
def parse_all_seq {E : Type} (now : Int)
    (er : Except E (List (List Char × RankEntry)))
    (em : Except E (List Session × HeatmapRet))
    (el : Except E (List (List Char × List Char))) : Except E ExtractionOutput := do
  let ranks ← er
  let sm ← em
  let lifetime ← el
  pure { timestamp := now
         overview_ranks := ranks
         overview_lifetime := if lifetime.isEmpty then none else some lifetime
         sessions := sm.1
         activity_heatmap := sm.2
         performance := [] }

/-- `RLStatsParser.parse_all()` (lines 340-401) up to the JSON dump (file
output is the caller's collaborator and is not part of the core): a missing
`overview.html` (a `None` soup) returns `False` on lines 349-351 — modelled
as `none`, no result record at all; otherwise the assembled output record.
`datetime.now()` enters as the explicit `now`. -/
def parse_all (now : Int) (doc : Option (List Char)) : Option ExtractionOutput :=
  match doc with
  | none => none
  | some text =>
    (@parse_all_seq Empty now (Except.ok (extract_ranks text))
      (Except.ok (extract_matches now (some text)))
      (Except.ok (extract_lifetime_stats text))).toOption


/-! ### Derived notions and concrete inputs used by the verification -/

/-- Sum of the tallied match counts of the sessions whose derived date is
`d` (the quantity the histogram is specified to expose). -/
def dateTotal (l : List Session) (d : Int) : Nat :=
  (l.map (fun s => if s.date = some d then tallySum s else 0)).sum

/-- Invariant of the per-session fold: the accumulator dictionary has
pairwise-distinct keys, and its value at every date is exactly the (positive)
sum of the tallied counts of the accumulated sessions deriving that date. -/
def GoodState (st : List Session × List (Int × Nat)) : Prop :=
  st.2.Pairwise (fun a b => a.1 ≠ b.1) ∧
  ∀ d, alookup d st.2 =
    if dateTotal st.1 d = 0 then none else some (dateTotal st.1 d)

/-- The shape of every playlist capture of the tally pattern. -/
def PlShape (pl : List Char) : Prop :=
  ∃ w1 alt w2 a v b, pl = rankedSpL ++ (w1 ++ (alt ++ (w2 ++ [a, v, b]))) ∧
    (alt = duelL ∨ alt = doublesL ∨ alt = standardAltL ∨
      containsSeq fourVFourL alt = true) ∧
    b.isDigit = true

/-- The heatmap field of a produced result is the sequence form. -/
def resultHeatOk : Option ExtractionOutput → Bool
  | some out => heatIsSeq out.activity_heatmap
  | none => false

/-- The closed playlist enumeration of the data model, as the seven storage
keys of the source. -/
def playlistEnum : List (List Char) :=
  [duelNameL, dblNameL, stdNameL, strL "Hoops", strL "Rumble", strL "Dropshot",
   strL "Snow Day"]

/-- A session block whose single tally has count `0`: retained, yet absent
from the histogram. -/
def c5Text : List Char := strL "Session Overview 2 days ago 0 Matches Ranked Duel 1v1 823"

/-- A session body with a win count but no parseable tally. -/
def c6Blk : List Char × List Char := (strL "2 days ago", strL " 3 Wins and no tallies")

/-- A session text used to exercise the retention invariant. -/
def c6Text : List Char :=
  strL "Session Overview 2 days ago 9 Matches Ranked Standard 3v3 1,096"

/-- A session block whose tally has count `0` and an unnormalized
`4v4 Quads` playlist label. -/
def c7Text : List Char :=
  strL "Session Overview 2 days ago 0 Matches Ranked 4v4 Quads 9v9 800"

/-- A session text with one ordinary tally, for the witness of the tally
data-model facts. -/
def c7WText : List Char :=
  strL "Session Overview 2 days ago 3 Matches Ranked 4v4 Quads 9v9 800"

/-- The session that `c7WText` produces. -/
def c7WSession : Session :=
  mkSession 100 (strL "2 days ago", strL " 3 Matches Ranked 4v4 Quads 9v9 800")

/-- The tally that `c7WText` produces. -/
def c7WTally : MatchTally :=
  { count := 3, playlist := strL "Ranked 4v4 Quads 9v9", mmr := 800 }

/-- The rank fragment quoted by the specification. -/
def c8Text : List Char := strL "Ranked Doubles 2v2 1,308Div257Champion III Div I"

/-- A text containing the quoted rank fragment, preceded by an earlier
combined-pattern match for the same playlist. -/
def c8TwoText : List Char :=
  strL "Ranked Doubles 2v2 999Div257Diamond III Div I Ranked Doubles 2v2 1,308Div257Champion III Div I"

/-- A text containing both quoted lifetime fragments, preceded by an earlier
match of the ratio pattern. -/
def c9CText : List Char :=
  strL "Goal Shot Ratio7#x Goal Shot Ratio48.5#9,633,706 Goals1,204#5 Goals / Shots 10 / 20"

/-- The lifetime text of the specification's test vector. -/
def c9WText : List Char :=
  strL "Goal Shot Ratio48.5#9,633,706 Goals1,204#55 Goals / Shots 10 / 20"

/-! ### Helper lemmas: characters and substrings -/

theorem digit_val_le (c : Char) (h : c.isDigit = true) : c.toNat - 48 ≤ 9 := by
  unfold Char.isDigit at h
  simp only [Bool.and_eq_true, decide_eq_true_eq] at h
  obtain ⟨h1, h2⟩ := h
  have g1 : (48 : UInt32).toNat ≤ c.val.toNat := h1
  have g2 : c.val.toNat ≤ (57 : UInt32).toNat := h2
  have e1 : (48 : UInt32).toNat = 48 := rfl
  have e2 : (57 : UInt32).toNat = 57 := rfl
  unfold Char.toNat
  omega

theorem digit_not_ws (c : Char) (h : c.isDigit = true) : c.isWhitespace = false := by
  unfold Char.isDigit at h
  simp only [Bool.and_eq_true, decide_eq_true_eq] at h
  obtain ⟨h1, h2⟩ := h
  have g1 : (48 : UInt32).toNat ≤ c.val.toNat := h1
  have g2 : c.val.toNat ≤ (57 : UInt32).toNat := h2
  have e1 : (48 : UInt32).toNat = 48 := rfl
  have e2 : (57 : UInt32).toNat = 57 := rfl
  unfold Char.isWhitespace
  simp only [Bool.or_eq_false_iff, decide_eq_false_iff_not]
  refine ⟨⟨⟨?_, ?_⟩, ?_⟩, ?_⟩ <;> intro he <;> subst he <;> simp_all

theorem startsWithSeq_append_self (n r : List Char) :
    startsWithSeq n (n ++ r) = true := by
  induction n with
  | nil => simp [startsWithSeq]
  | cons c t ih => simp [startsWithSeq, ih]

theorem containsSeq_of_starts (n h : List Char) (hs : startsWithSeq n h = true) :
    containsSeq n h = true := by
  cases h with
  | nil =>
    cases n with
    | nil => simp [containsSeq]
    | cons c t => simp [startsWithSeq] at hs
  | cons c t => simp [containsSeq, hs]

theorem containsSeq_append_left (n pre h : List Char)
    (hc : containsSeq n h = true) : containsSeq n (pre ++ h) = true := by
  induction pre with
  | nil => simpa using hc
  | cons c t ih => simp [containsSeq, ih]

theorem containsSeq_append_self (n pre r : List Char) :
    containsSeq n (pre ++ (n ++ r)) = true :=
  containsSeq_append_left n pre (n ++ r)
    (containsSeq_of_starts n (n ++ r) (startsWithSeq_append_self n r))

theorem trimWS_cons_last (x : Char) (m : List Char) (b : Char)
    (hx : x.isWhitespace = false) (hb : b.isWhitespace = false) :
    trimWS (x :: (m ++ [b])) = x :: (m ++ [b]) := by
  unfold trimWS
  rw [List.dropWhile_cons]
  simp only [hx, Bool.false_eq_true, if_false]
  rw [show (x :: (m ++ [b])).reverse = b :: (m.reverse ++ [x]) by simp]
  rw [List.dropWhile_cons]
  simp [hb]

/-! ### Helper lemmas: the heatmap dictionary (`defaultdict`) and sorting -/

theorem alookup_bump_self (d : Int) (v : Nat) (l : List (Int × Nat)) :
    alookup d (bump d v l) = some ((alookup d l).getD 0 + v) := by
  induction l with
  | nil => simp [bump, alookup]
  | cons p t ih =>
    unfold bump
    split
    · rename_i h
      simp [alookup, h]
    · rename_i h
      simp [alookup, h, ih]

theorem alookup_bump_ne (d d2 : Int) (hne : d2 ≠ d) (v : Nat) (l : List (Int × Nat)) :
    alookup d2 (bump d v l) = alookup d2 l := by
  induction l with
  | nil => simp [bump, alookup, Ne.symm hne]
  | cons p t ih =>
    unfold bump
    split
    · rename_i h
      have hx : p.1 ≠ d2 := by rw [h]; exact fun he => hne he.symm
      simp [alookup, hx]
    · simp [alookup, ih]

theorem fst_mem_bump (d : Int) (v : Nat) (l : List (Int × Nat)) :
    ∀ b ∈ bump d v l, b.1 = d ∨ ∃ c ∈ l, b.1 = c.1 := by
  induction l with
  | nil => simp [bump]
  | cons p t ih =>
    unfold bump
    split
    · rename_i h
      intro b hb
      rcases List.mem_cons.mp hb with hb | hb
      · left; rw [hb]; exact h
      · right; exact ⟨b, List.mem_cons_of_mem p hb, rfl⟩
    · intro b hb
      rcases List.mem_cons.mp hb with hb | hb
      · right; exact ⟨p, List.mem_cons_self p t, by rw [hb]⟩
      · rcases ih b hb with hc | ⟨c, hc, he⟩
        · left; exact hc
        · right; exact ⟨c, List.mem_cons_of_mem p hc, he⟩

theorem pairwise_ne_bump (d : Int) (v : Nat) (l : List (Int × Nat))
    (h : l.Pairwise (fun a b => a.1 ≠ b.1)) :
    (bump d v l).Pairwise (fun a b => a.1 ≠ b.1) := by
  induction l with
  | nil => simp [bump]
  | cons p t ih =>
    rw [List.pairwise_cons] at h
    unfold bump
    split
    · exact List.pairwise_cons.mpr ⟨h.1, h.2⟩
    · rename_i hne
      refine List.pairwise_cons.mpr ⟨?_, ih h.2⟩
      intro b hb
      rcases fst_mem_bump d v t b hb with hc | ⟨c, hc, he⟩
      · rw [hc]; exact hne
      · rw [he]; exact h.1 c hc

theorem mem_iff_alookup (d : Int) (c : Nat) (l : List (Int × Nat))
    (h : l.Pairwise (fun a b => a.1 ≠ b.1)) :
    (d, c) ∈ l ↔ alookup d l = some c := by
  induction l with
  | nil => simp [alookup]
  | cons p t ih =>
    rw [List.pairwise_cons] at h
    unfold alookup
    split
    · rename_i he
      simp only [List.mem_cons, Option.some_inj]
      constructor
      · intro hm
        rcases hm with hm | hm
        · rw [← hm] at he ⊢
        · exact absurd rfl (by rw [he] at h; exact (h.1 (d, c) hm))
      · intro hv
        left
        obtain ⟨p1, p2⟩ := p
        simp only at he hv
        rw [he, hv]
    · rename_i he
      simp only [List.mem_cons]
      rw [ih h.2]
      constructor
      · intro hm
        rcases hm with hm | hm
        · exact absurd (show p.1 = d by rw [← hm]) he
        · exact hm
      · intro hm
        right; exact hm

theorem perm_insertByKey (p : Int × Nat) (l : List (Int × Nat)) :
    (insertByKey p l).Perm (p :: l) := by
  induction l with
  | nil => simp [insertByKey]
  | cons q t ih =>
    unfold insertByKey
    split
    · exact List.Perm.refl _
    · exact (ih.cons q).trans (List.Perm.swap p q t)

theorem perm_sortByKey (l : List (Int × Nat)) : (sortByKey l).Perm l := by
  induction l with
  | nil => simp [sortByKey]
  | cons p t ih => exact (perm_insertByKey p (sortByKey t)).trans (ih.cons p)

theorem pairwise_le_insertByKey (p : Int × Nat) (l : List (Int × Nat))
    (h : l.Pairwise (fun a b => a.1 ≤ b.1)) :
    (insertByKey p l).Pairwise (fun a b => a.1 ≤ b.1) := by
  induction l with
  | nil => simp [insertByKey]
  | cons q t ih =>
    rw [List.pairwise_cons] at h
    unfold insertByKey
    split
    · rename_i hpq
      refine List.pairwise_cons.mpr ⟨?_, List.pairwise_cons.mpr ⟨h.1, h.2⟩⟩
      intro b hb
      rcases List.mem_cons.mp hb with hb | hb
      · subst hb; omega
      · exact le_trans hpq (h.1 b hb)
    · rename_i hpq
      refine List.pairwise_cons.mpr ⟨?_, ih h.2⟩
      intro b hb
      have := (perm_insertByKey p t).mem_iff.mp hb
      rcases List.mem_cons.mp this with hb2 | hb2
      · subst hb2; omega
      · exact h.1 b hb2

theorem pairwise_le_sortByKey (l : List (Int × Nat)) :
    (sortByKey l).Pairwise (fun a b => a.1 ≤ b.1) := by
  induction l with
  | nil => simp [sortByKey]
  | cons p t ih => exact pairwise_le_insertByKey p (sortByKey t) ih

/-! ### Helper lemmas: the session fold -/

theorem dateTotal_append_one (l : List Session) (s : Session) (d : Int) :
    dateTotal (l ++ [s]) d =
      dateTotal l d + (if s.date = some d then tallySum s else 0) := by
  simp [dateTotal]

theorem sessionStep_sessions (now : Int) (st : List Session × List (Int × Nat))
    (blk : List Char × List Char) :
    (sessionStep now st blk).1 =
      if (mkSession now blk).matchList = [] then st.1
      else st.1 ++ [mkSession now blk] := rfl

theorem sessionStep_heat (now : Int) (st : List Session × List (Int × Nat))
    (blk : List Char × List Char) :
    (sessionStep now st blk).2 =
      match (mkSession now blk).date with
      | some d =>
        if 0 < tallySum (mkSession now blk) then
          bump d (tallySum (mkSession now blk)) st.2
        else st.2
      | none => st.2 := rfl

theorem sessionStep_heat_none (now : Int) (st : List Session × List (Int × Nat))
    (blk : List Char × List Char) (hd : (mkSession now blk).date = none) :
    (sessionStep now st blk).2 = st.2 := by
  rw [sessionStep_heat, hd]

theorem sessionStep_heat_some_pos (now : Int) (st : List Session × List (Int × Nat))
    (blk : List Char × List Char) (d0 : Int)
    (hd : (mkSession now blk).date = some d0) (ht : 0 < tallySum (mkSession now blk)) :
    (sessionStep now st blk).2 = bump d0 (tallySum (mkSession now blk)) st.2 := by
  rw [sessionStep_heat, hd]
  exact if_pos ht

theorem sessionStep_heat_some_zero (now : Int) (st : List Session × List (Int × Nat))
    (blk : List Char × List Char) (d0 : Int)
    (hd : (mkSession now blk).date = some d0) (ht : ¬0 < tallySum (mkSession now blk)) :
    (sessionStep now st blk).2 = st.2 := by
  rw [sessionStep_heat, hd]
  exact if_neg ht

theorem sessionStep_good (now : Int) (st : List Session × List (Int × Nat))
    (blk : List Char × List Char) (h : GoodState st) :
    GoodState (sessionStep now st blk) := by
  obtain ⟨hk, hl⟩ := h
  have hmatch : tallySum (mkSession now blk) ≠ 0 → ¬(mkSession now blk).matchList = [] := by
    intro ht he
    exact ht (by simp [tallySum, he])
  have hsessTot : ∀ d : Int,
      dateTotal (sessionStep now st blk).1 d =
        dateTotal st.1 d +
          (if (mkSession now blk).date = some d then tallySum (mkSession now blk) else 0) := by
    intro d
    rw [sessionStep_sessions]
    by_cases hm : (mkSession now blk).matchList = []
    · rw [if_pos hm]
      have hz : tallySum (mkSession now blk) = 0 := by simp [tallySum, hm]
      rw [hz]
      simp
    · rw [if_neg hm, dateTotal_append_one]
  cases hd : (mkSession now blk).date with
  | none =>
    rw [GoodState, sessionStep_heat_none now st blk hd]
    refine ⟨hk, ?_⟩
    intro d
    rw [hsessTot d, hd]
    simp only [reduceCtorEq, if_false, Nat.add_zero]
    exact hl d
  | some d0 =>
    by_cases ht : 0 < tallySum (mkSession now blk)
    · rw [GoodState, sessionStep_heat_some_pos now st blk d0 hd ht]
      refine ⟨pairwise_ne_bump _ _ _ hk, ?_⟩
      intro d
      rw [hsessTot d, hd]
      by_cases hdd : d0 = d
      · subst hdd
        rw [if_pos rfl, alookup_bump_self, hl d0]
        have hnz : dateTotal st.1 d0 + tallySum (mkSession now blk) ≠ 0 := by omega
        rw [if_neg hnz]
        by_cases hz : dateTotal st.1 d0 = 0
        · simp [hz]
        · simp [hz]
      · have hne2 : ¬((some d0 : Option Int) = some d) := by
          intro he; exact hdd (Option.some_inj.mp he)
        rw [if_neg hne2, Nat.add_zero, alookup_bump_ne d0 d (fun he => hdd he.symm)]
        exact hl d
    · rw [GoodState, sessionStep_heat_some_zero now st blk d0 hd ht]
      refine ⟨hk, ?_⟩
      intro d
      have htz : tallySum (mkSession now blk) = 0 := by omega
      rw [hsessTot d, hd, htz]
      have hz2 : (if (some d0 : Option Int) = some d then 0 else 0) = 0 := by
        split <;> rfl
      rw [hz2, Nat.add_zero]
      exact hl d

theorem foldl_good (now : Int) (blocks : List (List Char × List Char))
    (st : List Session × List (Int × Nat)) (h : GoodState st) :
    GoodState (blocks.foldl (sessionStep now) st) := by
  induction blocks generalizing st with
  | nil => exact h
  | cons b t ih => exact ih (sessionStep now st b) (sessionStep_good now st b h)

theorem goodState_nil : GoodState ([], []) := by
  constructor
  · simp
  · intro d; simp [alookup, dateTotal]

/-- Every session in the folded list either was already accumulated or is the
(retained, hence non-empty) session of one of the processed blocks. -/
theorem mem_sessions_foldl (now : Int) (blocks : List (List Char × List Char))
    (st : List Session × List (Int × Nat)) :
    ∀ s ∈ (blocks.foldl (sessionStep now) st).1,
      s ∈ st.1 ∨ ∃ blk ∈ blocks, s = mkSession now blk ∧ s.matchList ≠ [] := by
  induction blocks generalizing st with
  | nil => intro s hs; exact Or.inl hs
  | cons b t ih =>
    intro s hs
    rcases ih (sessionStep now st b) s hs with hs2 | ⟨blk, hblk, he⟩
    · rw [sessionStep_sessions] at hs2
      by_cases hm : (mkSession now b).matchList = []
      · rw [if_pos hm] at hs2
        exact Or.inl hs2
      · rw [if_neg hm] at hs2
        rcases List.mem_append.mp hs2 with hs3 | hs3
        · exact Or.inl hs3
        · right
          refine ⟨b, List.mem_cons_self b t, List.mem_singleton.mp hs3, ?_⟩
          rw [List.mem_singleton.mp hs3]
          exact hm
    · exact Or.inr ⟨blk, List.mem_cons_of_mem b hblk, he⟩

/-- Every element that a `findall` scan emits is a success of the underlying
single-position matcher. -/
theorem mem_scanAll {A : Type} (f : List Char → Option (A × List Char)) :
    ∀ (fuel : Nat) (s : List Char) (a : A), a ∈ scanAll f fuel s →
      ∃ s0 r, f s0 = some (a, r) := by
  intro fuel
  induction fuel with
  | zero => intro s a ha; simp [scanAll] at ha
  | succ n ih =>
    intro s a ha
    unfold scanAll at ha
    cases hf : f s with
    | some p =>
      rw [hf] at ha
      rcases List.mem_cons.mp ha with ha2 | ha2
      · exact ⟨s, p.2, by rw [hf, ha2]⟩
      · exact ih p.2 a ha2
    | none =>
      rw [hf] at ha
      cases s with
      | nil => simp at ha
      | cons c t => exact ih t a ha

/-! ### Helper lemmas: shape of parsed tallies -/

theorem containsSeq_nil_needle (h : List Char) : containsSeq [] h = true := by
  cases h <;> simp [containsSeq, startsWithSeq]

theorem startsWithSeq_extend (n h r : List Char)
    (hs : startsWithSeq n h = true) : startsWithSeq n (h ++ r) = true := by
  induction n generalizing h with
  | nil => simp [startsWithSeq]
  | cons c t ih =>
    cases h with
    | nil => simp [startsWithSeq] at hs
    | cons x u =>
      simp only [startsWithSeq, Bool.and_eq_true] at hs
      simp only [List.cons_append, startsWithSeq, Bool.and_eq_true]
      exact ⟨hs.1, ih u hs.2⟩

theorem containsSeq_append_right (n h r : List Char)
    (hc : containsSeq n h = true) : containsSeq n (h ++ r) = true := by
  induction h with
  | nil =>
    simp only [containsSeq, List.isEmpty_iff] at hc
    subst hc
    exact containsSeq_nil_needle r
  | cons c t ih =>
    simp only [containsSeq, Bool.or_eq_true] at hc
    rcases hc with hc | hc
    · simp only [List.cons_append, containsSeq, Bool.or_eq_true]
      exact Or.inl (startsWithSeq_extend n (c :: t) r hc)
    · simp only [List.cons_append, containsSeq, Bool.or_eq_true]
      exact Or.inr (ih hc)

theorem playlistAlt_shape (s alt r : List Char)
    (h : playlistAlt s = some (alt, r)) :
    alt = duelL ∨ alt = doublesL ∨ alt = standardAltL ∨
      containsSeq fourVFourL alt = true := by
  unfold playlistAlt at h
  split at h
  · simp only [Option.some_inj, Prod.mk.injEq] at h
    exact Or.inl h.1.symm
  · split at h
    · simp only [Option.some_inj, Prod.mk.injEq] at h
      exact Or.inr (Or.inl h.1.symm)
    · split at h
      · simp only [Option.some_inj, Prod.mk.injEq] at h
        exact Or.inr (Or.inr (Or.inl h.1.symm))
      · right; right; right
        simp only [Option.bind_eq_bind, Option.bind_eq_some] at h
        obtain ⟨s1, hs1, ⟨w, s2⟩, hw, s3, hs3, h⟩ := h
        split at h
        · simp only [Option.some_inj, Prod.mk.injEq] at h
          rw [← h.1]
          simp only [List.append_assoc]
          exact containsSeq_of_starts _ _ (startsWithSeq_append_self fourVFourL _)
        · simp only [Option.some_inj, Prod.mk.injEq] at h
          rw [← h.1]
          simp only [List.append_assoc]
          exact containsSeq_of_starts _ _ (startsWithSeq_append_self fourVFourL _)

theorem dvdTok_shape (s dvd r : List Char) (h : dvdTok s = some (dvd, r)) :
    ∃ a v b, dvd = [a, v, b] ∧ a.isDigit = true ∧ b.isDigit = true := by
  unfold dvdTok at h
  split at h
  · rename_i a v b t
    split at h
    · rename_i hg
      simp only [Bool.and_eq_true, decide_eq_true_eq] at hg
      simp only [Option.some_inj, Prod.mk.injEq] at h
      exact ⟨a, v, b, h.1.symm, hg.1.1, hg.2⟩
    · exact absurd h (by simp)
  · exact absurd h (by simp)

theorem tallyTail_shape (cnt s3 : List Char) (raw : TallyRaw) (rest : List Char)
    (h : tallyCont.tallyTail cnt s3 = some (raw, rest)) :
    raw.cnt = cnt ∧ PlShape raw.pl := by
  unfold tallyCont.tallyTail at h
  simp only [Option.bind_eq_bind, Option.bind_eq_some, Option.pure_def,
    Option.some_inj, Prod.mk.injEq] at h
  obtain ⟨s4, hs4, s5, hs5, ⟨w1, s6⟩, hw1, ⟨alt, s7⟩, halt, ⟨w2, s8⟩, hw2,
    ⟨dvd, s9⟩, hdvd, ⟨m, s10⟩, hm, hraw, hrest⟩ := h
  obtain ⟨a, v, b, hdvd2, ha, hb⟩ := dvdTok_shape _ _ _ hdvd
  constructor
  · rw [← hraw]
  · rw [← hraw]
    refine ⟨w1, alt, w2, a, v, b, ?_, playlistAlt_shape _ _ _ halt, hb⟩
    simp only
    rw [hdvd2]
    simp [List.append_assoc]

theorem tallyCont_shape (cnt s : List Char) (raw : TallyRaw) (rest : List Char)
    (h : tallyCont cnt s = some (raw, rest)) :
    raw.cnt = cnt ∧ PlShape raw.pl := by
  unfold tallyCont at h
  split at h
  · exact absurd h (by simp)
  · split at h
    · exact absurd h (by simp)
    · split at h
      · rename_i r hr
        injection h with h1
        subst h1
        simp only [Option.bind_eq_bind, Option.bind_eq_some] at hr
        obtain ⟨s3, _, hr⟩ := hr
        exact tallyTail_shape cnt s3 raw rest hr
      · exact tallyTail_shape cnt _ raw rest h

theorem tryTallyAt_shape (s : List Char) (raw : TallyRaw) (rest : List Char)
    (h : tryTallyAt s = some (raw, rest)) :
    ((∃ a, raw.cnt = [a] ∧ a.isDigit = true) ∨
      (∃ a b, raw.cnt = [a, b] ∧ a.isDigit = true ∧ b.isDigit = true)) ∧
    PlShape raw.pl := by
  unfold tryTallyAt at h
  split at h
  · exact absurd h (by simp)
  · rename_i a t
    split at h
    · rename_i hadig
      split at h
      · rename_i b u
        split at h
        · rename_i hbdig
          split at h
          · rename_i r hr
            injection h with h1
            subst h1
            obtain ⟨hc, hp⟩ := tallyCont_shape [a, b] u raw rest hr
            exact ⟨Or.inr ⟨a, b, hc, hadig, hbdig⟩, hp⟩
          · obtain ⟨hc, hp⟩ := tallyCont_shape [a] (b :: u) raw rest h
            exact ⟨Or.inl ⟨a, hc, hadig⟩, hp⟩
        · obtain ⟨hc, hp⟩ := tallyCont_shape [a] (b :: u) raw rest h
          exact ⟨Or.inl ⟨a, hc, hadig⟩, hp⟩
      · obtain ⟨hc, hp⟩ := tallyCont_shape [a] [] raw rest h
        exact ⟨Or.inl ⟨a, hc, hadig⟩, hp⟩
    · exact absurd h (by simp)

theorem natOfDigits_one_le (a : Char) (h : a.isDigit = true) : natOfDigits [a] ≤ 99 := by
  have := digit_val_le a h
  simp only [natOfDigits, List.foldl]
  omega

theorem natOfDigits_two_le (a b : Char) (ha : a.isDigit = true) (hb : b.isDigit = true) :
    natOfDigits [a, b] ≤ 99 := by
  have h1 := digit_val_le a ha
  have h2 := digit_val_le b hb
  simp only [natOfDigits, List.foldl]
  omega

theorem trimWS_eq_self (l : List Char)
    (h1 : ∃ c t, l = c :: t ∧ c.isWhitespace = false)
    (h2 : ∃ m b, l = m ++ [b] ∧ b.isWhitespace = false) : trimWS l = l := by
  obtain ⟨c, t, he1, hc⟩ := h1
  obtain ⟨m, b, he2, hb⟩ := h2
  unfold trimWS
  rw [he1, List.dropWhile_cons]
  simp only [hc, Bool.false_eq_true, if_false]
  rw [← he1, he2]
  rw [show (m ++ [b]).reverse = b :: m.reverse by simp]
  rw [List.dropWhile_cons]
  simp [hb]

theorem plShape_trim (pl : List Char) (h : PlShape pl) : trimWS pl = pl := by
  obtain ⟨w1, alt, w2, a, v, b, hpl, _, hb⟩ := h
  refine trimWS_eq_self pl ⟨'R', strL "anked" ++ (w1 ++ (alt ++ (w2 ++ [a, v, b]))),
    by rw [hpl]; rfl, by decide⟩
    ⟨rankedSpL ++ (w1 ++ (alt ++ (w2 ++ [a, v]))), b, ?_, digit_not_ws b hb⟩
  rw [hpl]
  simp [List.append_assoc]

theorem plShape_contains (pl : List Char) (h : PlShape pl) :
    containsSeq duelL pl = true ∨ containsSeq doublesL pl = true ∨
    containsSeq standardAltL pl = true ∨ containsSeq fourVFourL pl = true := by
  obtain ⟨w1, alt, w2, a, v, b, hpl, halt, _⟩ := h
  rcases halt with he | he | he | he
  · left
    rw [hpl, he]
    exact containsSeq_append_left _ _ _ (containsSeq_append_left _ _ _
      (containsSeq_of_starts _ _ (startsWithSeq_append_self duelL _)))
  · right; left
    rw [hpl, he]
    exact containsSeq_append_left _ _ _ (containsSeq_append_left _ _ _
      (containsSeq_of_starts _ _ (startsWithSeq_append_self doublesL _)))
  · right; right; left
    rw [hpl, he]
    exact containsSeq_append_left _ _ _ (containsSeq_append_left _ _ _
      (containsSeq_of_starts _ _ (startsWithSeq_append_self standardAltL _)))
  · right; right; right
    rw [hpl]
    exact containsSeq_append_left _ _ _ (containsSeq_append_left _ _ _
      (containsSeq_append_right _ _ _ he))

theorem normalizePlaylist_cases (pl : List Char)
    (h : containsSeq duelL pl = true ∨ containsSeq doublesL pl = true ∨
         containsSeq standardAltL pl = true ∨ containsSeq fourVFourL pl = true) :
    normalizePlaylist pl = stdNameL ∨ normalizePlaylist pl = dblNameL ∨
    normalizePlaylist pl = duelNameL ∨
    containsSeq fourVFourL (normalizePlaylist pl) = true := by
  unfold normalizePlaylist
  split_ifs with h1 h2 h3
  · exact Or.inl rfl
  · exact Or.inr (Or.inl rfl)
  · exact Or.inr (Or.inr (Or.inl rfl))
  · right; right; right
    rcases h with hc | hc | hc | hc
    · exact absurd (by simp [hc] : (containsSeq duelL pl || containsSeq kw1v1L pl) = true) h3
    · exact absurd (by simp [hc] : (containsSeq doublesL pl || containsSeq kw2v2L pl) = true) h2
    · exact absurd (by simp [hc] : (containsSeq standardAltL pl || containsSeq kw3v3L pl) = true) h1
    · exact hc

/-- The data-model facts that hold of every tally the extractor can build:
the count fits in two digits (and may be zero), and the playlist is one of
the three normalized ranked names or retains a raw `4v4` label. -/
theorem mkTally_shape (raw : TallyRaw)
    (hc : (∃ a, raw.cnt = [a] ∧ a.isDigit = true) ∨
      (∃ a b, raw.cnt = [a, b] ∧ a.isDigit = true ∧ b.isDigit = true))
    (hp : PlShape raw.pl) :
    (mkTally raw).count ≤ 99 ∧
      ((mkTally raw).playlist = stdNameL ∨ (mkTally raw).playlist = dblNameL ∨
       (mkTally raw).playlist = duelNameL ∨
       containsSeq fourVFourL (mkTally raw).playlist = true) := by
  constructor
  · show natOfDigits raw.cnt ≤ 99
    rcases hc with ⟨a, he, ha⟩ | ⟨a, b, he, ha, hb⟩
    · rw [he]; exact natOfDigits_one_le a ha
    · rw [he]; exact natOfDigits_two_le a b ha hb
  · have he : (mkTally raw).playlist = normalizePlaylist raw.pl := by
      show normalizePlaylist (trimWS raw.pl) = _
      rw [plShape_trim raw.pl hp]
    rw [he]
    exact normalizePlaylist_cases raw.pl (plShape_contains raw.pl hp)

/-- `extract_matches` on a present document, unfolded. -/
theorem extract_matches_eq (now : Int) (text : List Char) :
    extract_matches now (some text) =
      (((((segmentSessions text).take 20).foldl (sessionStep now) ([], []))).1,
       .list (sortByKey
         ((((segmentSessions text).take 20).foldl (sessionStep now) ([], []))).2)) := rfl

theorem pairwise_ne_perm (l l2 : List (Int × Nat)) (h : l.Perm l2)
    (h2 : l.Pairwise (fun a b => a.1 ≠ b.1)) :
    l2.Pairwise (fun a b => a.1 ≠ b.1) := by
  refine (List.Perm.pairwise_iff ?_ h).mp h2
  intro a b hab
  exact hab.symm

theorem alookupS_optHead_ne {A : Type} (k nm : List Char) (o : Option A)
    (rest : List (List Char × A)) (h : nm ≠ k) :
    alookupS k ((o.map (fun e => (nm, e))).toList ++ rest) = alookupS k rest := by
  cases o with
  | none => rfl
  | some e => simp [alookupS, h]

theorem alookupS_optHead_eq {A : Type} (k : List Char) (e : A)
    (rest : List (List Char × A)) :
    alookupS k (((some e).map (fun x => (k, x))).toList ++ rest) = some e := by
  simp [alookupS]

theorem rankEntryFor_combined (text label mmrStr tierStr : List Char)
    (h1 : containsSeq label text = true)
    (h2 : rankCombined label text = some (mmrStr, tierStr)) :
    rankEntryFor text label =
      if collapseWS (trimWS tierStr) ≠ unrankedL ∨
          0 < natOfDigits (stripCommas mmrStr) then
        some { rank := collapseWS (trimWS tierStr),
               mmr := natOfDigits (stripCommas mmrStr) }
      else none := by
  unfold rankEntryFor
  rw [if_pos h1, h2]

/-! ## The claims -/

/-- Claim C3 (counterexample).  The claim states that a phrase with integer
`N` and a `month` unit normalizes to `now - N * 30` days.  At `now = 1000`
and phrase `"3 months ago"`, the source's `_parse_relative_date` — which has
no month branch and falls through to `return today` — yields `now` itself,
not `now - 90`. -/
theorem claim_c3_counterexample :
    parse_relative_date 1000 (strL "3 months ago") = some 1000 ∧
    parse_relative_date 1000 (strL "3 months ago") ≠ some (1000 - 3 * 30) := by
  decide

/-- Claim C3 (amended).  For every phrase containing an integer and whose
lowercased text contains `"month"` but none of `"hour"`, `"day"`, `"week"`,
`normalize_relative` returns the injected now's own calendar day (the
function has no month branch), not `now - N * 30` days. -/
theorem claim_c3_amended (now : Int) (phrase : List Char)
    (hnum : (firstDigitRun (lowerL phrase)).isSome = true)
    (hmonth : containsSeq monthL (lowerL phrase) = true)
    (hhour : containsSeq hourL (lowerL phrase) = false)
    (hday : containsSeq dayL (lowerL phrase) = false)
    (hweek : containsSeq weekL (lowerL phrase) = false) :
    parse_relative_date now phrase = some now := by
  simp only [parse_relative_date]
  cases hfd : firstDigitRun (lowerL phrase) with
  | none => rfl
  | some run => simp [hhour, hday, hweek]

/-- Claim C3 (witness): the amended statement at `"3 months ago"`,
`now = 1000`. -/
theorem claim_c3_witness :
    (firstDigitRun (lowerL (strL "3 months ago"))).isSome = true ∧
    containsSeq monthL (lowerL (strL "3 months ago")) = true ∧
    parse_relative_date 1000 (strL "3 months ago") = some 1000 :=
  ⟨by decide, by decide,
    claim_c3_amended 1000 (strL "3 months ago") (by decide) (by decide) (by decide)
      (by decide) (by decide)⟩

/-- Claim C4 (counterexample).  The claim states that a phrase with no
integer normalizes to null.  At `now = 1000` and phrase `"soon"`, the source
returns `today.strftime(...)` — the injected now's day — not `None`. -/
theorem claim_c4_counterexample :
    parse_relative_date 1000 (strL "soon") = some 1000 ∧
    parse_relative_date 1000 (strL "soon") ≠ none := by
  decide

/-- Claim C4 (amended).  When no integer is found, or when none of the unit
tokens `hour`/`day`/`week` occurs in the lowercased phrase,
`normalize_relative` returns the injected now's own calendar day — not null —
and (being total in the embedding) never raises; `None` is produced only by
the `except` handler around the day/week arithmetic. -/
theorem claim_c4_amended (now : Int) (phrase : List Char)
    (h : (firstDigitRun (lowerL phrase)).isSome = false ∨
      (containsSeq hourL (lowerL phrase) = false ∧
       containsSeq dayL (lowerL phrase) = false ∧
       containsSeq weekL (lowerL phrase) = false)) :
    parse_relative_date now phrase = some now := by
  simp only [parse_relative_date]
  cases hfd : firstDigitRun (lowerL phrase) with
  | none => rfl
  | some run =>
    rcases h with h | ⟨h1, h2, h3⟩
    · rw [hfd] at h; simp at h
    · simp [h1, h2, h3]

/-- Claim C4 (witness): the amended statement at `"soon"`, `now = 1000`. -/
theorem claim_c4_witness :
    (firstDigitRun (lowerL (strL "soon"))).isSome = false ∧
    parse_relative_date 1000 (strL "soon") = some 1000 :=
  ⟨by decide, claim_c4_amended 1000 (strL "soon") (Or.inl (by decide))⟩

set_option maxRecDepth 100000 in
/-- Claim C5 (counterexample).  The claim demands exactly one heatmap entry
per distinct non-null derived date among retained sessions.  On `c5Text` the
single session is retained (its tally has count `0`), derives a date, yet the
heatmap is empty — no entry exists for that date. -/
theorem claim_c5_counterexample :
    (extract_matches 100 (some c5Text)).1.any
      (fun s => s.date.isSome && !s.matchList.isEmpty) = true ∧
    heatEntries (extract_matches 100 (some c5Text)).2 = [] := by
  decide

/-- Claim C5 (amended).  For every text, the heatmap of `extract_sessions`
has exactly one entry per distinct non-null derived date among retained
sessions *whose summed tally count is positive*; the entry's count equals the
sum of all tally counts of the retained sessions deriving that date, and the
entries are strictly sorted by date ascending.  (A retained session whose
tallies sum to zero — possible since a captured count may be `0` —
contributes no entry.) -/
theorem claim_c5_amended (now : Int) (text : List Char) (d : Int) (c : Nat) :
    ((d, c) ∈ heatEntries (extract_matches now (some text)).2 ↔
      (0 < dateTotal (extract_matches now (some text)).1 d ∧
        c = dateTotal (extract_matches now (some text)).1 d)) ∧
    List.Pairwise (fun a b : Int × Nat => a.1 < b.1)
      (heatEntries (extract_matches now (some text)).2) := by
  obtain ⟨hk, hl⟩ :=
    foldl_good now ((segmentSessions text).take 20) ([], []) goodState_nil
  have he1 : (extract_matches now (some text)).1 =
      (((segmentSessions text).take 20).foldl (sessionStep now) ([], [])).1 := rfl
  have he2 : heatEntries (extract_matches now (some text)).2 =
      sortByKey ((((segmentSessions text).take 20).foldl (sessionStep now) ([], []))).2 := rfl
  constructor
  · rw [he1, he2]
    rw [(perm_sortByKey _).mem_iff, mem_iff_alookup d c _ hk, hl d]
    constructor
    · intro hx
      by_cases hz :
          dateTotal ((((segmentSessions text).take 20).foldl (sessionStep now) ([], []))).1 d = 0
      · rw [if_pos hz] at hx
        exact absurd hx (by simp)
      · rw [if_neg hz] at hx
        exact ⟨Nat.pos_of_ne_zero hz, (Option.some_inj.mp hx).symm⟩
    · rintro ⟨hpos, hc⟩
      rw [if_neg (Nat.pos_iff_ne_zero.mp hpos), hc]
  · rw [he2]
    have hle := pairwise_le_sortByKey
      ((((segmentSessions text).take 20).foldl (sessionStep now) ([], []))).2
    have hne := pairwise_ne_perm _ _ (perm_sortByKey _).symm hk
    exact (hle.and hne).imp (fun hx => lt_of_le_of_ne hx.1 hx.2)

/-- Claim C6 (confirmed).  A session block with zero parseable tallies is
absent from the session list and leaves the whole accumulator — sessions and
heatmap alike — unchanged; and every returned session has at least one
tally. -/
theorem claim_c6 (now : Int) (text : List Char)
    (st : List Session × List (Int × Nat)) (blk : List Char × List Char)
    (h : findTallies blk.2 = []) :
    ((extract_matches now (some text)).1.all (fun s => !s.matchList.isEmpty)) = true ∧
    sessionStep now st blk = st := by
  constructor
  · rw [List.all_eq_true]
    intro s hs
    rcases mem_sessions_foldl now ((segmentSessions text).take 20) ([], []) s hs with
      hbad | ⟨blk2, _, _, hne⟩
    · exact absurd hbad (by simp)
    · cases hml : s.matchList with
      | nil => exact absurd hml hne
      | cons a t => simp [hml]
  · have hm : (mkSession now blk).matchList = [] := by
      show (findTallies blk.2).map mkTally = []
      rw [h]
      rfl
    have hsl := sessionStep_sessions now st blk
    rw [if_pos hm] at hsl
    have ht : ¬0 < tallySum (mkSession now blk) := by
      simp [tallySum, hm]
    cases hd : (mkSession now blk).date with
    | none => exact Prod.ext hsl (sessionStep_heat_none now st blk hd)
    | some d0 => exact Prod.ext hsl (sessionStep_heat_some_zero now st blk d0 hd ht)

set_option maxRecDepth 100000 in
/-- Claim C6 (witness): the statement at a concrete text and a concrete
block whose body has a win count but no tallies. -/
theorem claim_c6_witness :
    findTallies c6Blk.2 = [] ∧
    ((extract_matches 0 (some c6Text)).1.all (fun s => !s.matchList.isEmpty)) = true ∧
    sessionStep 0 ([], []) c6Blk = ([], []) :=
  ⟨by decide, (claim_c6 0 c6Text ([], []) c6Blk (by decide)).1,
    (claim_c6 0 c6Text ([], []) c6Blk (by decide)).2⟩

set_option maxRecDepth 100000 in
/-- Claim C7 (counterexample).  The claim demands that every tally have a
positive count and a playlist in the closed seven-name enumeration.  On
`c7Text` the extractor returns a tally with count `0` whose playlist is the
unnormalized label `"Ranked 4v4 Quads 9v9"`, outside the enumeration. -/
theorem claim_c7_counterexample :
    (extract_matches 100 (some c7Text)).1.all
      (fun s => s.matchList.all
        (fun t => decide (0 < t.count) && playlistEnum.contains t.playlist)) = false := by
  decide

/-- Claim C7 (amended).  Every tally of every returned session has a count of
at most 99 — possibly zero, since the pattern `(\d{1,2})` admits `0` — and a
playlist that is either one of the three normalized ranked names or a raw
captured label still containing `"4v4"` (the `4v4 Quads?` alternative of the
pattern escapes keyword normalization). -/
theorem claim_c7_amended (now : Int) (text : List Char) (s : Session)
    (t : MatchTally) (hs : s ∈ (extract_matches now (some text)).1)
    (ht : t ∈ s.matchList) :
    t.count ≤ 99 ∧ (t.playlist = stdNameL ∨ t.playlist = dblNameL ∨
      t.playlist = duelNameL ∨ containsSeq fourVFourL t.playlist = true) := by
  rcases mem_sessions_foldl now ((segmentSessions text).take 20) ([], []) s hs with
    hbad | ⟨blk, _, he, _⟩
  · exact absurd hbad (by simp)
  · rw [he] at ht
    obtain ⟨raw, hraw, hte⟩ := List.mem_map.mp ht
    obtain ⟨s0, r0, hf⟩ := mem_scanAll tryTallyAt (blk.2.length + 1) blk.2 raw hraw
    obtain ⟨hcnt, hpl⟩ := tryTallyAt_shape s0 raw r0 hf
    rw [← hte]
    exact mkTally_shape raw hcnt hpl

set_option maxRecDepth 100000 in
/-- Claim C7 (witness): the amended statement at the concrete session and
tally of `c7WText`. -/
theorem claim_c7_witness :
    (c7WSession ∈ (extract_matches 100 (some c7WText)).1) ∧
    (c7WTally ∈ c7WSession.matchList) ∧
    c7WTally.count ≤ 99 ∧
    (c7WTally.playlist = stdNameL ∨ c7WTally.playlist = dblNameL ∨
      c7WTally.playlist = duelNameL ∨
      containsSeq fourVFourL c7WTally.playlist = true) :=
  ⟨by decide, by decide,
    (claim_c7_amended 100 c7WText c7WSession c7WTally (by decide) (by decide)).1,
    (claim_c7_amended 100 c7WText c7WSession c7WTally (by decide) (by decide)).2⟩

/-- Claim C1 (counterexample).  The claim states that an exception raised by
one extractor is caught at the Result Assembler's boundary.  `parse_all`
wraps none of the three extractor invocations in a handler, so an error in
the rank extractor propagates out of the assembly instead of yielding a
result with an empty rank family. -/
theorem claim_c1_counterexample :
    @parse_all_seq Unit 0 (Except.error ()) (Except.ok ([], HeatmapRet.list []))
      (Except.ok []) = Except.error () := rfl

/-- Claim C1 (amended).  `parse_all` invokes the extractors with no
surrounding `try`/`except`, so an exception arising in any one of the three
invoked extractors propagates out of `parse_all` unchanged (each extractor
does catch exceptions per processed item internally, skipping only that
item; the assembler itself adds no boundary). -/
theorem claim_c1_amended {E : Type} (now : Int) (e : E)
    (rv : List (List Char × RankEntry)) (smv : List Session × HeatmapRet)
    (em : Except E (List Session × HeatmapRet))
    (el : Except E (List (List Char × List Char)))
    (lv2 : List (List Char × List Char)) :
    parse_all_seq now (Except.error e) em el = Except.error e ∧
    parse_all_seq now (Except.ok rv) (Except.error e) el = Except.error e ∧
    parse_all_seq now (Except.ok rv) (Except.ok smv) (Except.error e) = Except.error e ∧
    parse_all_seq now (Except.ok rv) (Except.ok smv) (Except.ok lv2) ≠ Except.error e :=
  ⟨rfl, rfl, rfl, by intro hx; exact Except.noConfusion hx⟩

/-- Claim C2 (counterexample).  The claim states that `extract_all` yields an
`ExtractionResult` of well-typed containers even when the input document is
absent.  With an absent document, `parse_all` returns `False` — no result at
all — and `extract_matches` returns the *mapping* accumulator (an empty
`defaultdict`), not an empty sequence, as its heatmap component
(`src/parser.py` lines 116-119, 349-351). -/
theorem claim_c2_counterexample :
    parse_all 0 none = none ∧
    (extract_matches 0 none).2 = HeatmapRet.dict [] ∧
    heatIsSeq (extract_matches 0 none).2 = false := by
  decide

/-- Claim C2 (amended).  For every *present* (possibly empty) document,
`extract_all` never raises (it is total in the embedding) and always
produces a result whose heatmap field is the sequence form — the one
dynamically-typed field of the output; the mapping-typed heatmap and the
absence of a result occur only on the absent-document path shown in the
counterexample. -/
theorem claim_c2_amended (now : Int) (text : List Char) :
    resultHeatOk (parse_all now (some text)) = true := rfl

set_option maxRecDepth 1000000 in
/-- Claim C8 (counterexample).  The claim quantifies over every text
containing the quoted fragment; `re.search` keeps the *first* combined-
pattern match, so a text with an earlier `Ranked Doubles 2v2` rank block
yields that earlier rating and tier, not `1308`/`"Champion III Div I"`. -/
theorem claim_c8_counterexample :
    containsSeq c8Text c8TwoText = true ∧
    alookupS (strL "Ranked Doubles 2v2") (extract_ranks c8TwoText) =
      some { rank := strL "Diamond III Div I", mmr := 999 } ∧
    alookupS (strL "Ranked Doubles 2v2") (extract_ranks c8TwoText) ≠
      some { rank := strL "Champion III Div I", mmr := 1308 } := by
  decide

/-- Claim C8 (amended).  For every text whose *first* combined-pattern match
for `Ranked Doubles 2v2` is the quoted fragment's `(1,308, Champion III
Div I)` capture (first match wins), the rank mapping's `Ranked Doubles 2v2`
entry has rating `1308` — thousands separator stripped — and tier
`"Champion III Div I"` (whitespace collapsed); in particular for the text
consisting of the fragment itself. -/
theorem claim_c8_amended (text : List Char)
    (h1 : containsSeq (strL "Ranked Doubles 2v2") text = true)
    (h2 : rankCombined (strL "Ranked Doubles 2v2") text =
      some (strL "1,308", strL "Champion III Div I")) :
    alookupS (strL "Ranked Doubles 2v2") (extract_ranks text) =
      some { rank := strL "Champion III Div I", mmr := 1308 } := by
  have hdbl : rankEntryFor text (strL "Ranked Doubles 2v2") =
      some { rank := strL "Champion III Div I", mmr := 1308 } := by
    rw [rankEntryFor_combined text (strL "Ranked Doubles 2v2")
      (strL "1,308") (strL "Champion III Div I") h1 h2]
    decide
  unfold extract_ranks
  rw [alookupS_optHead_ne _ _ _ _ (by decide), hdbl,
    alookupS_optHead_eq]

set_option maxRecDepth 1000000 in
/-- Claim C8 (witness): the amended statement at the quoted fragment
itself. -/
theorem claim_c8_witness :
    containsSeq (strL "Ranked Doubles 2v2") c8Text = true ∧
    rankCombined (strL "Ranked Doubles 2v2") c8Text =
      some (strL "1,308", strL "Champion III Div I") ∧
    alookupS (strL "Ranked Doubles 2v2") (extract_ranks c8Text) =
      some { rank := strL "Champion III Div I", mmr := 1308 } :=
  ⟨by decide, by decide, claim_c8_amended c8Text (by decide) (by decide)⟩

set_option maxRecDepth 1000000 in
/-- Claim C9 (counterexample).  The claim quantifies over every text
containing `"Goal Shot Ratio48.5#9,633,706"`; the lifetime patterns keep the
*first* match in document order, so a text with an earlier
`Goal Shot Ratio7#x` occurrence stores `"7%"`, not `"48.5%"`. -/
theorem claim_c9_counterexample :
    containsSeq (strL "Goal Shot Ratio48.5#9,633,706") c9CText = true ∧
    alookupS (strL "Goal Shot Ratio") (extract_lifetime_stats c9CText) =
      some (strL "7%") ∧
    alookupS (strL "Goal Shot Ratio") (extract_lifetime_stats c9CText) ≠
      some (strL "48.5%") := by
  decide

/-- Claim C9 (amended).  For every text whose *first* match of the ratio
pattern captures `48.5` and whose first match of the lookbehind-guarded
`Goals` pattern captures `1,204` (first match wins; the lookbehind and the
required digits-then-`#` continuation prevent a match inside the
`"Goals / Shots"` aggregate), the lifetime mapping stores
`Goal Shot Ratio ↦ "48.5%"` — percent appended — and `Goals ↦ "1,204"`; in
particular for the specification's quoted text. -/
theorem claim_c9_amended (text : List Char)
    (hr : searchRatioLT text = some (strL "48.5"))
    (hg : searchBehindLT goalsWordL text = some (strL "1,204")) :
    alookupS (strL "Goal Shot Ratio") (extract_lifetime_stats text) =
      some (strL "48.5%") ∧
    alookupS (strL "Goals") (extract_lifetime_stats text) =
      some (strL "1,204") := by
  constructor
  · unfold extract_lifetime_stats
    rw [alookupS_optHead_ne _ _ _ _ (by decide),
      alookupS_optHead_ne _ _ _ _ (by decide),
      alookupS_optHead_ne _ _ _ _ (by decide),
      alookupS_optHead_ne _ _ _ _ (by decide),
      alookupS_optHead_ne _ _ _ _ (by decide),
      alookupS_optHead_ne _ _ _ _ (by decide), hr]
    have hv : ((some (strL "48.5")).map (fun v =>
        (strL "Goal Shot Ratio",
          if containsSeq pctL v then v else v ++ pctL))).toList =
        [(strL "Goal Shot Ratio", strL "48.5%")] := by decide
    rw [hv]
    simp [alookupS]
  · unfold extract_lifetime_stats
    rw [alookupS_optHead_ne _ _ _ _ (by decide), hg, alookupS_optHead_eq]

set_option maxRecDepth 1000000 in
/-- Claim C9 (witness): the amended statement at the specification's quoted
text. -/
theorem claim_c9_witness :
    searchRatioLT c9WText = some (strL "48.5") ∧
    searchBehindLT goalsWordL c9WText = some (strL "1,204") ∧
    alookupS (strL "Goal Shot Ratio") (extract_lifetime_stats c9WText) =
      some (strL "48.5%") ∧
    alookupS (strL "Goals") (extract_lifetime_stats c9WText) =
      some (strL "1,204") :=
  ⟨by decide, by decide, (claim_c9_amended c9WText (by decide) (by decide)).1,
    (claim_c9_amended c9WText (by decide) (by decide)).2⟩

/-- Claim C10 (confirmed).  The engine is deterministic: the ambient
`datetime.now()` is its only implicit input, made explicit as `now` in the
embedding; nothing else but the document text enters, no state is retained
between calls, so two calls on identical text with an identical "now" yield
identical results. -/
theorem claim_c10 (doc : Option (List Char)) (now1 now2 : Int)
    (h : now1 = now2) : parse_all now1 doc = parse_all now2 doc := by
  rw [h]

/-- Claim C10 (witness): two runs at the same instant on the same text. -/
theorem claim_c10_witness :
    parse_all 5 (some (strL "Session Overview 2 days ago")) =
      parse_all 5 (some (strL "Session Overview 2 days ago")) :=
  claim_c10 (some (strL "Session Overview 2 days ago")) 5 5 rfl

end RLTracker
